import Mathlib

/-!
# Verification of the `World` entity/component store (`src/world.rs`)

Shallow embedding of the component store of the repository.  The Rust code
stores one `Vec<Option<T>>` per component type `T` inside a heterogeneous
`Vec<Box<dyn ComponentVec>>`, and recovers the typed vector by runtime
downcasting on the type of `T`.

Modelling choices:
* a Rust component type `T` is modelled by a natural-number type tag `ty`
  (distinct Rust types have distinct `TypeId`s, hence distinct tags);
* a component value is modelled by a natural-number payload (the claims only
  ever compare values for equality);
* a `Vec<Option<T>>` is modelled by `List (Option Nat)` together with its tag;
* Rust indexed assignment `v[i] = x`, which panics when `i` is out of range,
  is modelled by an `Option`-returning update (`none` = panic), and the two
  mutating store operations return `Option World` accordingly;
* `Vec::get` is modelled by `List.getElem?` (`l[i]?`).
-/

/-- One type-erased component vector (`Box<dyn ComponentVec>` holding a
`Vec<Option<T>>`): the runtime type of `T` is the tag `ty`, the elements are
`data`. -/
structure CVec where
  ty : Nat
  data : List (Option Nat)
  deriving Repr, DecidableEq

/-- Rust `ComponentVec::push_none` (world.rs line 162): `self.push(None)`. -/
def CVec.push_none (cv : CVec) : CVec :=
  { cv with data := cv.data ++ [none] }

/-- The `World` struct (world.rs lines 1-4). -/
structure World where
  entities_count : Nat
  component_vecs : List CVec
  deriving Repr, DecidableEq

/-- Rust `World::new` (world.rs lines 7-12): the empty store. -/
def World.new : World :=
  { entities_count := 0, component_vecs := [] }

/-- Rust `World::new_entity` (world.rs lines 14-21): remember the old count,
push an absent slot onto every component vector, increment the count, and
return the old count as the fresh id (paired with the updated store). -/
def World.new_entity (w : World) : Nat × World :=
  (w.entities_count,
   { entities_count := w.entities_count + 1
     component_vecs := w.component_vecs.map CVec.push_none })

/-- Rust indexed assignment `v[entity] = Some(component)` on a
`Vec<Option<T>>`: panics (`none`) when `entity` is out of range. -/
def setSlot (l : List (Option Nat)) (entity c : Nat) : Option (List (Option Nat)) :=
  if entity < l.length then some (l.set entity (some c)) else none

/-- The loop of `World::add_component_to_entity` (world.rs lines 28-36): walk
the component vectors and write into the first one whose type matches,
returning early.  `none` models a panic of the indexed assignment,
`some none` means no vector matched, `some (some l)` is the updated list. -/
def addToVecs (ty entity c : Nat) : List CVec → Option (Option (List CVec))
  | [] => some none
  | cv :: rest =>
    if cv.ty = ty then
      match setSlot cv.data entity c with
      | some d => some (some ({ ty := cv.ty, data := d } :: rest))
      | none => none
    else
      match addToVecs ty entity c rest with
      | some (some rest2) => some (some (cv :: rest2))
      | some none => some none
      | none => none

/-- Rust `World::add_component_to_entity` (world.rs lines 23-50).  If some vector
has the component's type, write at index `entity` there (early return); else
allocate a fresh vector of `entities_count` absent slots, write at `entity`,
and push it at the end.  `none` models a Rust panic of either indexed
assignment. -/
def World.add_component_to_entity (w : World) (ty entity c : Nat) : Option World :=
  match addToVecs ty entity c w.component_vecs with
  | none => none
  | some (some vecs) => some { w with component_vecs := vecs }
  | some none =>
    match setSlot (List.replicate w.entities_count none) entity c with
    | none => none
    | some d => some { w with component_vecs := w.component_vecs ++ [⟨ty, d⟩] }

/-- The search loop of `World::borrow_component_vec` (world.rs lines 56-64):
the data of the first vector whose type matches, if any. -/
def findVec (ty : Nat) : List CVec → Option (List (Option Nat))
  | [] => none
  | cv :: rest => if cv.ty = ty then some cv.data else findVec ty rest

/-- Rust `World::borrow_component_vec` (world.rs lines 53-65). -/
def World.borrow_component_vec (w : World) (ty : Nat) : Option (List (Option Nat)) :=
  findVec ty w.component_vecs

/-- Rust `World::get_component` (world.rs lines 67-75): `None` when
`entity >= entities_count`, else borrow the vector for the type and chain
`vec.get(entity)` and `option.as_ref()` through `and_then`. -/
def World.get_component (w : World) (ty entity : Nat) : Option Nat :=
  if w.entities_count ≤ entity then none
  else ((w.borrow_component_vec ty).bind (fun vec => vec[entity]?)).bind id

/-- Rust `World::query_entities_with_material_and_mesh` (world.rs lines 77-100):
zip the two borrowed vectors, enumerate, and keep the indices where both
entries are present; empty when either vector is missing. -/
def World.query_entities_with_material_and_mesh (w : World) (ty1 ty2 : Nat) : List Nat :=
  match w.borrow_component_vec ty1, w.borrow_component_vec ty2 with
  | some mesh_vec, some material_vec =>
    ((mesh_vec.zip material_vec).enum).filterMap
      (fun q => if (q.2.1.isSome && q.2.2.isSome) then some q.1 else none)
  | _, _ => []

/-- Rust `World::query_entities_with_mesh_but_no_material` (world.rs lines
102-145): with both vectors, keep the indices with a present mesh entry and
`material_vec.get(i).and_then(as_ref).is_none()`; with only a mesh vector,
keep every index with a present mesh entry; with no mesh vector, empty. -/
def World.query_entities_with_mesh_but_no_material (w : World) (ty1 ty2 : Nat) : List Nat :=
  match w.borrow_component_vec ty1, w.borrow_component_vec ty2 with
  | some mesh_vec, some material_vec =>
    mesh_vec.enum.filterMap
      (fun q => if (q.2.isSome && ((material_vec[q.1]?).bind id).isNone) then some q.1 else none)
  | some mesh_vec, none =>
    mesh_vec.enum.filterMap (fun q => if q.2.isSome then some q.1 else none)
  | none, _ => []

/-- A slot of a component vector is present at index `i` (in range and
`Some`). -/
def slotPresent (d : List (Option Nat)) (i : Nat) : Bool :=
  ((d[i]?).bind id).isSome

/-- One mutating call on the store, with the caller discipline the spec
demands of writes: `add_component_to_entity` is only called with
`entity < entities_count`, and the call completes (does not panic). -/
inductive Step : World → World → Prop
  | new_entity (w : World) : Step w w.new_entity.2
  | add (w w' : World) (ty entity c : Nat) :
      entity < w.entities_count →
      w.add_component_to_entity ty entity c = some w' →
      Step w w'

/-- Store states reachable from the empty store by mutating calls. -/
inductive Reachable : World → Prop
  | init : Reachable World.new
  | step {w w' : World} : Reachable w → Step w w' → Reachable w'

/-- The length invariant: every registered component vector has length
`entities_count`. -/
def LenInv (w : World) : Prop :=
  ∀ cv ∈ w.component_vecs, cv.data.length = w.entities_count

/-- At most one component vector per type tag. -/
def TyNodup (w : World) : Prop :=
  (w.component_vecs.map CVec.ty).Nodup

/-- Repeated `new_entity`: the ids returned by `n` consecutive calls, in
order, together with the final store. -/
def newEntities : World → Nat → List Nat × World
  | w, 0 => ([], w)
  | w, n + 1 =>
    let p := w.new_entity
    let q := newEntities p.2 n
    (p.1 :: q.1, q.2)

/-- A syntactic trace of mutating calls, used to express facts about
component types that were never passed to `add_component_to_entity`. -/
inductive Op where
  | newE : Op
  | addC (ty entity c : Nat) : Op
  deriving Repr, DecidableEq

/-- Run a trace of mutating calls; `none` models a panic of some
`add_component_to_entity` call along the way. -/
def runOps : World → List Op → Option World
  | w, [] => some w
  | w, Op.newE :: ops => runOps w.new_entity.2 ops
  | w, Op.addC ty entity c :: ops =>
    match w.add_component_to_entity ty entity c with
    | none => none
    | some w' => runOps w' ops

/-- Whether a call passes a value of the component type tagged `ty` to
`add_component_to_entity`. -/
def Op.usesTy (op : Op) (ty : Nat) : Bool :=
  match op with
  | Op.newE => false
  | Op.addC ty2 _ _ => ty2 = ty

/-- The three-entity scenario of the spec (§8, query correctness): entities
`e0,e1,e2`; `e0` gets a Mesh (tag 0) and a Material (tag 1), `e1` only a
Mesh, `e2` nothing.  `none` would mean some write panicked. -/
def scenarioWorld : Option World :=
  (((World.new.new_entity.2.new_entity.2.new_entity.2.add_component_to_entity 0 0 10).bind
    (fun w => w.add_component_to_entity 1 0 20)).bind
    (fun w => w.add_component_to_entity 0 1 30))

/-! ## Lemmas about the search and update loops -/

lemma findVec_eq_none_iff (ty : Nat) (l : List CVec) :
    findVec ty l = none ↔ ∀ cv ∈ l, cv.ty ≠ ty := by
  induction l with
  | nil => simp [findVec]
  | cons cv rest ih =>
    by_cases h : cv.ty = ty
    · simp [findVec, h]
    · simp [findVec, h, ih]

lemma findVec_mem {ty : Nat} {l : List CVec} {d : List (Option Nat)}
    (h : findVec ty l = some d) : ∃ cv ∈ l, cv.ty = ty ∧ cv.data = d := by
  induction l with
  | nil => simp [findVec] at h
  | cons cv rest ih =>
    by_cases hty : cv.ty = ty
    · have hd : cv.data = d := by simpa [findVec, hty] using h
      exact ⟨cv, by simp, hty, hd⟩
    · have h' : findVec ty rest = some d := by simpa [findVec, hty] using h
      obtain ⟨cv2, hmem, h1, h2⟩ := ih h'
      exact ⟨cv2, by simp [hmem], h1, h2⟩

lemma findVec_append (ty : Nat) (l1 l2 : List CVec) :
    findVec ty (l1 ++ l2) =
      match findVec ty l1 with
      | some d => some d
      | none => findVec ty l2 := by
  induction l1 with
  | nil => simp [findVec]
  | cons cv rest ih =>
    by_cases h : cv.ty = ty <;> simp [findVec, h, ih]

lemma findVec_map_push_none (ty : Nat) (l : List CVec) :
    findVec ty (l.map CVec.push_none) = (findVec ty l).map (fun d => d ++ [none]) := by
  induction l with
  | nil => simp [findVec]
  | cons cv rest ih =>
    by_cases h : cv.ty = ty <;> simp [findVec, CVec.push_none, h, ih]

lemma addToVecs_eq_some_none_iff (ty e c : Nat) (l : List CVec) :
    addToVecs ty e c l = some none ↔ findVec ty l = none := by
  induction l with
  | nil => simp [addToVecs, findVec]
  | cons cv rest ih =>
    by_cases h : cv.ty = ty
    · rcases hs : setSlot cv.data e c with _ | d <;> simp [addToVecs, findVec, h, hs]
    · rcases hr : addToVecs ty e c rest with _ | (_ | rest2) <;>
        rw [hr] at ih <;> simp [addToVecs, findVec, h, hr, ← ih]

lemma setSlot_eq_some {l : List (Option Nat)} {e c : Nat} {d : List (Option Nat)}
    (h : setSlot l e c = some d) : e < l.length ∧ d = l.set e (some c) := by
  by_cases he : e < l.length
  · refine ⟨he, ?_⟩
    simpa [setSlot, he] using h.symm
  · simp [setSlot, he] at h

lemma setSlot_of_lt {l : List (Option Nat)} {e : Nat} (c : Nat) (he : e < l.length) :
    setSlot l e c = some (l.set e (some c)) := by
  simp [setSlot, he]

lemma addToVecs_found (ty e c : Nat) (l : List CVec) (d : List (Option Nat))
    (hf : findVec ty l = some d) (he : e < d.length) :
    ∃ l2, addToVecs ty e c l = some (some l2) ∧
      findVec ty l2 = some (d.set e (some c)) ∧
      (∀ ty2, ty2 ≠ ty → findVec ty2 l2 = findVec ty2 l) ∧
      l2.map CVec.ty = l.map CVec.ty ∧
      (∀ cv2 ∈ l2, ∃ cv ∈ l, cv2.data.length = cv.data.length) := by
  induction l with
  | nil => simp [findVec] at hf
  | cons cv rest ih =>
    by_cases h : cv.ty = ty
    · have hd : cv.data = d := by simpa [findVec, h] using hf
      subst hd
      refine ⟨{ ty := cv.ty, data := cv.data.set e (some c) } :: rest, ?_, ?_, ?_, ?_, ?_⟩
      · simp [addToVecs, h, setSlot_of_lt c he]
      · simp [findVec, h]
      · intro ty2 hne
        have : cv.ty ≠ ty2 := fun hc => hne (hc ▸ h)
        simp [findVec, this]
      · simp
      · intro cv2 hm
        rcases List.mem_cons.mp hm with rfl | hm
        · exact ⟨cv, by simp, by simp⟩
        · exact ⟨cv2, by simp [hm], rfl⟩
    · have hf' : findVec ty rest = some d := by simpa [findVec, h] using hf
      obtain ⟨rest2, h1, h2, h3, h4, h5⟩ := ih hf'
      refine ⟨cv :: rest2, ?_, ?_, ?_, ?_, ?_⟩
      · simp [addToVecs, h, h1]
      · simp [findVec, h, h2]
      · intro ty2 hne
        by_cases h2' : cv.ty = ty2 <;> simp [findVec, h2', h3 ty2 hne]
      · simp [h4]
      · intro cv2 hm
        rcases List.mem_cons.mp hm with rfl | hm
        · exact ⟨cv2, by simp, rfl⟩
        · obtain ⟨cv3, hm3, hl3⟩ := h5 cv2 hm
          exact ⟨cv3, by simp [hm3], hl3⟩

lemma addToVecs_some_some {ty e c : Nat} {l l2 : List CVec}
    (h : addToVecs ty e c l = some (some l2)) :
    ∃ d, findVec ty l = some d ∧ e < d.length := by
  induction l generalizing l2 with
  | nil => simp [addToVecs] at h
  | cons cv rest ih =>
    by_cases hty : cv.ty = ty
    · rcases hs : setSlot cv.data e c with _ | dd
      · rw [addToVecs] at h
        simp [hty, hs] at h
      · exact ⟨cv.data, by simp [findVec, hty], (setSlot_eq_some hs).1⟩
    · rcases hr : addToVecs ty e c rest with _ | (_ | rest2) <;>
        rw [addToVecs] at h <;> simp [hty, hr] at h
      obtain ⟨d, h1, h2⟩ := ih hr
      exact ⟨d, by simp [findVec, hty, h1], h2⟩

lemma findVec_append_self {ty : Nat} {l : List CVec}
    (hf : findVec ty l = none) (d : List (Option Nat)) :
    findVec ty (l ++ [⟨ty, d⟩]) = some d := by
  rw [findVec_append, hf]
  simp [findVec]

lemma findVec_append_other {ty ty2 : Nat} (hne : ty2 ≠ ty)
    (l : List CVec) (d : List (Option Nat)) :
    findVec ty2 (l ++ [⟨ty, d⟩]) = findVec ty2 l := by
  rw [findVec_append]
  cases h : findVec ty2 l <;> simp [findVec, Ne.symm hne]

/-! ## Specification lemmas for the store operations -/

lemma add_spec_found (w : World) (ty e c : Nat) (d : List (Option Nat))
    (hf : w.borrow_component_vec ty = some d) (he : e < d.length) :
    ∃ w', w.add_component_to_entity ty e c = some w' ∧
      w'.entities_count = w.entities_count ∧
      w'.borrow_component_vec ty = some (d.set e (some c)) ∧
      (∀ ty2, ty2 ≠ ty → w'.borrow_component_vec ty2 = w.borrow_component_vec ty2) ∧
      w'.component_vecs.map CVec.ty = w.component_vecs.map CVec.ty ∧
      (∀ cv2 ∈ w'.component_vecs, ∃ cv ∈ w.component_vecs,
        cv2.data.length = cv.data.length) := by
  obtain ⟨l2, h1, h2, h3, h4, h5⟩ := addToVecs_found ty e c w.component_vecs d hf he
  exact ⟨{ w with component_vecs := l2 },
    by simp [World.add_component_to_entity, h1], rfl, h2, fun ty2 hne => h3 ty2 hne, h4, h5⟩

lemma add_spec_notfound (w : World) (ty e c : Nat)
    (hf : w.borrow_component_vec ty = none) (he : e < w.entities_count) :
    w.add_component_to_entity ty e c =
      some { w with component_vecs := w.component_vecs ++
        [⟨ty, (List.replicate w.entities_count none).set e (some c)⟩] } := by
  have h1 : addToVecs ty e c w.component_vecs = some none :=
    (addToVecs_eq_some_none_iff ty e c _).mpr hf
  have h2 : setSlot (List.replicate w.entities_count none) e c =
      some ((List.replicate w.entities_count none).set e (some c)) :=
    setSlot_of_lt c (by simpa using he)
  simp [World.add_component_to_entity, h1, h2]

lemma add_eq_some_cases {w w' : World} {ty e c : Nat}
    (h : w.add_component_to_entity ty e c = some w') :
    (∃ d, w.borrow_component_vec ty = some d ∧ e < d.length ∧
       w'.entities_count = w.entities_count ∧
       w'.borrow_component_vec ty = some (d.set e (some c)) ∧
       (∀ ty2, ty2 ≠ ty → w'.borrow_component_vec ty2 = w.borrow_component_vec ty2) ∧
       w'.component_vecs.map CVec.ty = w.component_vecs.map CVec.ty ∧
       (∀ cv2 ∈ w'.component_vecs, ∃ cv ∈ w.component_vecs,
         cv2.data.length = cv.data.length)) ∨
    (w.borrow_component_vec ty = none ∧ e < w.entities_count ∧
       w' = { w with component_vecs := w.component_vecs ++
         [⟨ty, (List.replicate w.entities_count none).set e (some c)⟩] }) := by
  rcases hv : addToVecs ty e c w.component_vecs with _ | (_ | l2)
  · simp [World.add_component_to_entity, hv] at h
  · have hf : w.borrow_component_vec ty = none :=
      (addToVecs_eq_some_none_iff ty e c _).mp hv
    rcases hs : setSlot (List.replicate w.entities_count none) e c with _ | d
    · simp [World.add_component_to_entity, hv, hs] at h
    · obtain ⟨he, rfl⟩ := setSlot_eq_some hs
      refine Or.inr ⟨hf, by simpa using he, ?_⟩
      have := h.symm
      simpa [World.add_component_to_entity, hv, hs] using this
  · obtain ⟨d, hf, he⟩ := addToVecs_some_some hv
    obtain ⟨w2, h1, h2, h3, h4, h5, h6⟩ := add_spec_found w ty e c d hf he
    rw [h] at h1
    obtain rfl : w' = w2 := Option.some.inj h1
    exact Or.inl ⟨d, hf, he, h2, h3, h4, h5, h6⟩

lemma map_ty_push_none (l : List CVec) :
    (l.map CVec.push_none).map CVec.ty = l.map CVec.ty := by
  rw [List.map_map]
  rfl

/-! ## Invariant preservation -/

lemma lenInv_new_entity {w : World} (h : LenInv w) : LenInv w.new_entity.2 := by
  intro cv hm
  simp only [World.new_entity, List.mem_map] at hm
  obtain ⟨cv0, hm0, rfl⟩ := hm
  simp [World.new_entity, CVec.push_none, h cv0 hm0]

lemma tyNodup_new_entity {w : World} (h : TyNodup w) : TyNodup w.new_entity.2 := by
  unfold TyNodup at h ⊢
  simpa [World.new_entity, map_ty_push_none] using h

lemma lenInv_add {w w' : World} {ty e c : Nat} (h : LenInv w)
    (hadd : w.add_component_to_entity ty e c = some w') : LenInv w' := by
  rcases add_eq_some_cases hadd with ⟨d, hf, he, hcount, _, _, _, hlen⟩ | ⟨hf, he, rfl⟩
  · intro cv2 hm
    obtain ⟨cv, hmem, hl⟩ := hlen cv2 hm
    rw [hcount, hl]
    exact h cv hmem
  · intro cv2 hm
    simp only [List.mem_append, List.mem_singleton] at hm
    rcases hm with hm | rfl
    · exact h cv2 hm
    · simp

lemma tyNodup_add {w w' : World} {ty e c : Nat} (h : TyNodup w)
    (hadd : w.add_component_to_entity ty e c = some w') : TyNodup w' := by
  rcases add_eq_some_cases hadd with ⟨d, _, _, _, _, _, hmap, _⟩ | ⟨hf, he, rfl⟩
  · unfold TyNodup at h ⊢
    rw [hmap]
    exact h
  · have hnot : ty ∉ w.component_vecs.map CVec.ty := by
      rw [List.mem_map]
      rintro ⟨cv, hm, hty⟩
      exact (findVec_eq_none_iff ty _).mp hf cv hm hty
    unfold TyNodup at h ⊢
    simp only [List.map_append, List.map_cons, List.map_nil]
    exact List.Nodup.append h (by simp) (by simpa [List.disjoint_singleton] using hnot)

lemma reachable_inv {w : World} (h : Reachable w) : LenInv w ∧ TyNodup w := by
  induction h with
  | init =>
    constructor
    · intro cv hm
      simp [World.new] at hm
    · simp [TyNodup, World.new]
  | step hr hs ih =>
    cases hs with
    | new_entity => exact ⟨lenInv_new_entity ih.1, tyNodup_new_entity ih.2⟩
    | add x1 x2 x3 x4 hlt hadd => exact ⟨lenInv_add ih.1 hadd, tyNodup_add ih.2 hadd⟩

/-! ## Query lemmas -/

lemma filterMap_enumFrom_eq {α : Type} (p : Nat → α → Bool) (l : List α) : ∀ s : Nat,
    (List.enumFrom s l).filterMap (fun q => if p q.1 q.2 then some q.1 else none)
    = (List.range' s l.length).filter (fun i => ((l[i - s]?).map (p i)).getD false) := by
  induction l with
  | nil => intro s; simp
  | cons x xs ih =>
    intro s
    rw [List.enumFrom_cons, List.filterMap_cons, List.length_cons, List.range'_succ,
      List.filter_cons]
    have hhead : ((((x :: xs)[s - s]?).map (p s)).getD false) = p s x := by
      simp [Nat.sub_self]
    have hcongr : (List.range' (s + 1) xs.length).filter
        (fun i => (((x :: xs)[i - s]?).map (p i)).getD false)
        = (List.range' (s + 1) xs.length).filter
            (fun i => ((xs[i - (s + 1)]?).map (p i)).getD false) := by
      apply List.filter_congr
      intro i hi
      have hs1 : s + 1 ≤ i := (List.mem_range'_1.mp hi).1
      have he : i - s = (i - (s + 1)) + 1 := by omega
      rw [he, List.getElem?_cons_succ]
    rw [hhead, hcongr, ← ih (s + 1)]
    by_cases hp : p s x <;> simp [hp]

lemma filterMap_enum_eq {α : Type} (p : Nat → α → Bool) (l : List α) :
    l.enum.filterMap (fun q => if p q.1 q.2 then some q.1 else none)
    = (List.range l.length).filter (fun i => ((l[i]?).map (p i)).getD false) := by
  rw [List.enum_eq_enumFrom, filterMap_enumFrom_eq, List.range_eq_range']
  simp

lemma slotPresent_lt {d : List (Option Nat)} {i : Nat} (h : slotPresent d i = true) :
    i < d.length := by
  by_contra hh
  push_neg at hh
  simp [slotPresent, List.getElem?_eq_none hh] at h

lemma query_with_eq (w : World) (ty1 ty2 : Nat) (d1 d2 : List (Option Nat))
    (h1 : w.borrow_component_vec ty1 = some d1)
    (h2 : w.borrow_component_vec ty2 = some d2) :
    w.query_entities_with_material_and_mesh ty1 ty2
      = (List.range (min d1.length d2.length)).filter
          (fun i => slotPresent d1 i && slotPresent d2 i) := by
  have hstep := filterMap_enum_eq (fun i ab => ab.1.isSome && ab.2.isSome) (d1.zip d2)
  simp only [World.query_entities_with_material_and_mesh, h1, h2]
  refine Eq.trans hstep ?_
  rw [List.length_zip]
  apply List.filter_congr
  intro i hi
  have hi' : i < min d1.length d2.length := by
    have := List.mem_range.mp hi
    simpa using this
  have hi1 : i < d1.length := lt_of_lt_of_le hi' (min_le_left _ _)
  have hi2 : i < d2.length := lt_of_lt_of_le hi' (min_le_right _ _)
  have hz : (d1.zip d2)[i]? = some (d1[i], d2[i]) :=
    List.getElem?_zip_eq_some.mpr
      ⟨List.getElem?_eq_getElem hi1, List.getElem?_eq_getElem hi2⟩
  rw [hz]
  simp [slotPresent, List.getElem?_eq_getElem hi1, List.getElem?_eq_getElem hi2]

lemma query_with_empty {w : World} {ty1 ty2 : Nat}
    (h : w.borrow_component_vec ty1 = none ∨ w.borrow_component_vec ty2 = none) :
    w.query_entities_with_material_and_mesh ty1 ty2 = [] := by
  rcases h1 : w.borrow_component_vec ty1 with _ | d1 <;>
    rcases h2 : w.borrow_component_vec ty2 with _ | d2 <;>
    simp_all [World.query_entities_with_material_and_mesh]

lemma query_only_eq_both (w : World) (ty1 ty2 : Nat) (d1 d2 : List (Option Nat))
    (h1 : w.borrow_component_vec ty1 = some d1)
    (h2 : w.borrow_component_vec ty2 = some d2) :
    w.query_entities_with_mesh_but_no_material ty1 ty2
      = (List.range d1.length).filter
          (fun i => slotPresent d1 i && !slotPresent d2 i) := by
  have hstep := filterMap_enum_eq (fun i a => a.isSome && ((d2[i]?).bind id).isNone) d1
  simp only [World.query_entities_with_mesh_but_no_material, h1, h2]
  refine Eq.trans hstep ?_
  apply List.filter_congr
  intro i hi
  have hi1 : i < d1.length := List.mem_range.mp hi
  rw [List.getElem?_eq_getElem hi1]
  have hnn : ((d2[i]?).bind id).isNone = !slotPresent d2 i := by
    simp [slotPresent, Option.bnot_isSome]
  simp [slotPresent, hnn, List.getElem?_eq_getElem hi1]

lemma query_only_eq_noMaterial (w : World) (ty1 ty2 : Nat) (d1 : List (Option Nat))
    (h1 : w.borrow_component_vec ty1 = some d1)
    (h2 : w.borrow_component_vec ty2 = none) :
    w.query_entities_with_mesh_but_no_material ty1 ty2
      = (List.range d1.length).filter (fun i => slotPresent d1 i) := by
  have hstep := filterMap_enum_eq (fun _ a => a.isSome) d1
  simp only [World.query_entities_with_mesh_but_no_material, h1, h2]
  refine Eq.trans hstep ?_
  apply List.filter_congr
  intro i hi
  have hi1 : i < d1.length := List.mem_range.mp hi
  simp [slotPresent, List.getElem?_eq_getElem hi1]

lemma query_only_empty {w : World} {ty1 ty2 : Nat}
    (h1 : w.borrow_component_vec ty1 = none) :
    w.query_entities_with_mesh_but_no_material ty1 ty2 = [] := by
  rcases h2 : w.borrow_component_vec ty2 with _ | d2 <;>
    simp_all [World.query_entities_with_mesh_but_no_material]

lemma add_progress {w : World} (h : LenInv w) {e : Nat}
    (he : e < w.entities_count) (ty c : Nat) :
    ∃ w', w.add_component_to_entity ty e c = some w' := by
  rcases hf : w.borrow_component_vec ty with _ | d
  · exact ⟨_, add_spec_notfound w ty e c hf he⟩
  · obtain ⟨cv, hm, hty, hdata⟩ := findVec_mem hf
    have hlen : d.length = w.entities_count := hdata ▸ h cv hm
    obtain ⟨w', h1, _⟩ := add_spec_found w ty e c d hf (hlen ▸ he)
    exact ⟨w', h1⟩

lemma borrow_none_new_entity {w : World} {ty : Nat}
    (h : w.borrow_component_vec ty = none) :
    w.new_entity.2.borrow_component_vec ty = none := by
  show findVec ty (w.component_vecs.map CVec.push_none) = none
  rw [findVec_map_push_none]
  rw [World.borrow_component_vec] at h
  simp [h]

lemma borrow_none_add {w w' : World} {ty ty2 e c : Nat}
    (h : w.borrow_component_vec ty = none) (hne : ty2 ≠ ty)
    (hadd : w.add_component_to_entity ty2 e c = some w') :
    w'.borrow_component_vec ty = none := by
  rcases add_eq_some_cases hadd with ⟨d, _, _, _, _, hother, _, _⟩ | ⟨_, _, rfl⟩
  · rw [hother ty (Ne.symm hne)]
    exact h
  · show findVec ty (w.component_vecs ++ _) = none
    rw [findVec_append_other (Ne.symm hne)]
    exact h

lemma runOps_borrow_none {ty : Nat} : ∀ (ops : List Op) (w w' : World),
    runOps w ops = some w' → w.borrow_component_vec ty = none →
    (∀ op ∈ ops, op.usesTy ty = false) → w'.borrow_component_vec ty = none := by
  intro ops
  induction ops with
  | nil =>
    intro w w' hrun h _
    obtain rfl := Option.some.inj hrun
    exact h
  | cons op rest ih =>
    intro w w' hrun h hops
    cases op with
    | newE =>
      exact ih _ _ hrun (borrow_none_new_entity h) (fun o ho => hops o (by simp [ho]))
    | addC ty2 e c =>
      have hne : ty2 ≠ ty := by
        have := hops (Op.addC ty2 e c) (by simp)
        simpa [Op.usesTy] using this
      rcases hadd : w.add_component_to_entity ty2 e c with _ | w2
      · rw [runOps, hadd] at hrun
        cases hrun
      · rw [runOps, hadd] at hrun
        exact ih _ _ hrun (borrow_none_add h hne hadd) (fun o ho => hops o (by simp [ho]))

lemma newEntities_fst (n : Nat) : ∀ w : World,
    (newEntities w n).1 = List.range' w.entities_count n := by
  induction n with
  | zero => intro w; simp [newEntities]
  | succ n ih =>
    intro w
    rw [newEntities, List.range'_succ]
    simp only [ih]
    rfl

/-! ## Claim theorems -/

/-- C1.  Length invariant: in every store reachable from the empty store by
`new_entity` and in-range `add_component_to_entity` calls, every registered
component collection has length `entities_count`; moreover any further
in-range `add_component_to_entity` call completes (so the invariant really
does survive each call). -/
theorem claim_C1_length_invariant :
    ∀ w : World, Reachable w →
      LenInv w ∧ ∀ ty e c : Nat, e < w.entities_count →
        ∃ w', w.add_component_to_entity ty e c = some w' := by
  intro w hr
  have h := reachable_inv hr
  exact ⟨h.1, fun ty e c he => add_progress h.1 he ty c⟩

theorem claim_C1_witness :
    ∃ w', (World.new.new_entity.2).add_component_to_entity 5 0 42 = some w' :=
  (claim_C1_length_invariant _
    (Reachable.step Reachable.init (Step.new_entity World.new))).2 5 0 42 (by decide)

/-- C2.  Round-trip: in any store satisfying the length invariant, for an
entity `e < entities_count` and a value `v` of component type `ty`,
`add_component_to_entity e v` completes and a subsequent
`get_component ty e` returns `some v`. -/
theorem claim_C2_round_trip :
    ∀ (w : World) (ty e v : Nat), LenInv w → e < w.entities_count →
      ∃ w', w.add_component_to_entity ty e v = some w' ∧
        w'.get_component ty e = some v := by
  intro w ty e v h he
  rcases hf : w.borrow_component_vec ty with _ | d
  · refine ⟨_, add_spec_notfound w ty e v hf he, ?_⟩
    have hb : findVec ty (w.component_vecs ++
        [⟨ty, (List.replicate w.entities_count none).set e (some v)⟩])
        = some ((List.replicate w.entities_count none).set e (some v)) :=
      findVec_append_self hf _
    have hlen : e < (List.replicate w.entities_count (none : Option Nat)).length := by
      simpa using he
    simp [World.get_component, Nat.not_le.mpr he, World.borrow_component_vec, hb,
      List.getElem?_set_self hlen]
  · have hdlen : d.length = w.entities_count := by
      obtain ⟨cv, hm, hty, hdata⟩ := findVec_mem hf
      exact hdata ▸ h cv hm
    obtain ⟨w', h1, hcount, hb, _, _, _⟩ := add_spec_found w ty e v d hf (hdlen ▸ he)
    refine ⟨w', h1, ?_⟩
    have he' : ¬ w'.entities_count ≤ e := by rw [hcount]; omega
    simp [World.get_component, he', hb,
      List.getElem?_set_self (show e < d.length from hdlen ▸ he)]

theorem claim_C2_witness :
    ∃ w', (World.mk 1 []).add_component_to_entity 3 0 9 = some w' ∧
      w'.get_component 3 0 = some 9 :=
  claim_C2_round_trip (World.mk 1 []) 3 0 9 (by intro cv hm; simp at hm) (by decide)

/-- C5.  `new_entity` is total: it returns the prior entity count as the
fresh id, increments `entities_count`, appends one absent slot to every
existing collection, and `n` consecutive calls on a fresh store return
exactly `0, 1, ..., n-1` in order. -/
theorem claim_C5_new_entity_fresh_ids :
    (∀ w : World,
      w.new_entity.1 = w.entities_count ∧
      w.new_entity.2.entities_count = w.entities_count + 1 ∧
      w.new_entity.2.component_vecs = w.component_vecs.map CVec.push_none ∧
      ∀ cv : CVec, (CVec.push_none cv).data = cv.data ++ [none]) ∧
    ∀ n : Nat, (newEntities World.new n).1 = List.range n := by
  constructor
  · intro w
    exact ⟨rfl, rfl, rfl, fun cv => rfl⟩
  · intro n
    rw [newEntities_fst n World.new, List.range_eq_range']
    rfl

/-- C9.  At most one collection per component type: every reachable store
has pairwise-distinct type tags among its collections, so a type resolves
to a unique collection. -/
theorem claim_C9_unique_collection_per_type :
    ∀ w : World, Reachable w →
      TyNodup w ∧
      ∀ (ty : Nat) (c1 c2 : CVec), c1 ∈ w.component_vecs → c2 ∈ w.component_vecs →
        c1.ty = ty → c2.ty = ty → c1 = c2 := by
  intro w hr
  have h := (reachable_inv hr).2
  refine ⟨h, ?_⟩
  intro ty c1 c2 h1 h2 ht1 ht2
  exact List.inj_on_of_nodup_map h h1 h2 (ht1.trans ht2.symm)

theorem claim_C9_witness : TyNodup World.new :=
  (claim_C9_unique_collection_per_type World.new Reachable.init).1

/-- C3.  `query_entities_with_material_and_mesh`: the result is strictly
ascending in entity id; when both types are registered, it holds exactly the
ids whose two slots are both present; when either type is unregistered, it
is empty; and on the three-entity scenario it is exactly `[e0] = [0]`. -/
theorem claim_C3_query_with :
    (∀ (w : World) (ty1 ty2 : Nat),
      (w.query_entities_with_material_and_mesh ty1 ty2).Pairwise (fun a b => a < b) ∧
      (∀ d1 d2, w.borrow_component_vec ty1 = some d1 →
        w.borrow_component_vec ty2 = some d2 →
        ∀ i, i ∈ w.query_entities_with_material_and_mesh ty1 ty2 ↔
          slotPresent d1 i = true ∧ slotPresent d2 i = true) ∧
      (w.borrow_component_vec ty1 = none ∨ w.borrow_component_vec ty2 = none →
        w.query_entities_with_material_and_mesh ty1 ty2 = [])) ∧
    scenarioWorld.map (fun w => w.query_entities_with_material_and_mesh 0 1)
      = some [0] := by
  constructor
  · intro w ty1 ty2
    refine ⟨?_, ?_, query_with_empty⟩
    · rcases h1 : w.borrow_component_vec ty1 with _ | d1
      · rw [query_with_empty (Or.inl h1)]
        exact List.Pairwise.nil
      · rcases h2 : w.borrow_component_vec ty2 with _ | d2
        · rw [query_with_empty (Or.inr h2)]
          exact List.Pairwise.nil
        · rw [query_with_eq w ty1 ty2 d1 d2 h1 h2]
          exact List.Pairwise.filter _ (List.pairwise_lt_range _)
    · intro d1 d2 h1 h2 i
      rw [query_with_eq w ty1 ty2 d1 d2 h1 h2, List.mem_filter, List.mem_range]
      constructor
      · rintro ⟨_, hp⟩
        exact ⟨(by simpa using hp : _ ∧ _).1, (by simpa using hp : _ ∧ _).2⟩
      · rintro ⟨hp1, hp2⟩
        exact ⟨lt_min (slotPresent_lt hp1) (slotPresent_lt hp2), by simp [hp1, hp2]⟩
  · decide

theorem claim_C3_witness :
    0 ∈ (World.mk 1 [⟨0, [some 5]⟩, ⟨1, [some 7]⟩]).query_entities_with_material_and_mesh 0 1 :=
  ((claim_C3_query_with.1 (World.mk 1 [⟨0, [some 5]⟩, ⟨1, [some 7]⟩]) 0 1).2.1
    [some 5] [some 7] (by decide) (by decide) 0).mpr ⟨by decide, by decide⟩

/-- C4.  `query_entities_with_mesh_but_no_material`: the result is strictly
ascending; with both types registered it holds exactly the ids with a
present `ty1` slot and an absent `ty2` slot; with `ty1` registered and `ty2`
unregistered it holds exactly the ids with a present `ty1` slot; with `ty1`
unregistered it is empty; on the three-entity scenario it is exactly
`[e1] = [1]`. -/
theorem claim_C4_query_with_only :
    (∀ (w : World) (ty1 ty2 : Nat),
      (w.query_entities_with_mesh_but_no_material ty1 ty2).Pairwise (fun a b => a < b) ∧
      (∀ d1 d2, w.borrow_component_vec ty1 = some d1 →
        w.borrow_component_vec ty2 = some d2 →
        ∀ i, i ∈ w.query_entities_with_mesh_but_no_material ty1 ty2 ↔
          slotPresent d1 i = true ∧ slotPresent d2 i = false) ∧
      (∀ d1, w.borrow_component_vec ty1 = some d1 →
        w.borrow_component_vec ty2 = none →
        ∀ i, i ∈ w.query_entities_with_mesh_but_no_material ty1 ty2 ↔
          slotPresent d1 i = true) ∧
      (w.borrow_component_vec ty1 = none →
        w.query_entities_with_mesh_but_no_material ty1 ty2 = [])) ∧
    scenarioWorld.map (fun w => w.query_entities_with_mesh_but_no_material 0 1)
      = some [1] := by
  constructor
  · intro w ty1 ty2
    refine ⟨?_, ?_, ?_, query_only_empty⟩
    · rcases h1 : w.borrow_component_vec ty1 with _ | d1
      · rw [query_only_empty h1]
        exact List.Pairwise.nil
      · rcases h2 : w.borrow_component_vec ty2 with _ | d2
        · rw [query_only_eq_noMaterial w ty1 ty2 d1 h1 h2]
          exact List.Pairwise.filter _ (List.pairwise_lt_range _)
        · rw [query_only_eq_both w ty1 ty2 d1 d2 h1 h2]
          exact List.Pairwise.filter _ (List.pairwise_lt_range _)
    · intro d1 d2 h1 h2 i
      rw [query_only_eq_both w ty1 ty2 d1 d2 h1 h2, List.mem_filter, List.mem_range]
      constructor
      · rintro ⟨_, hp⟩
        have hp' := (by simpa using hp : _ ∧ _)
        exact ⟨hp'.1, by simpa using hp'.2⟩
      · rintro ⟨hp1, hp2⟩
        exact ⟨slotPresent_lt hp1, by simp [hp1, hp2]⟩
    · intro d1 h1 h2 i
      rw [query_only_eq_noMaterial w ty1 ty2 d1 h1 h2, List.mem_filter, List.mem_range]
      constructor
      · rintro ⟨_, hp⟩
        exact hp
      · intro hp
        exact ⟨slotPresent_lt hp, hp⟩
  · decide

theorem claim_C4_witness :
    1 ∈ (World.mk 2 [⟨0, [some 5, some 6]⟩, ⟨1, [some 7, none]⟩]).query_entities_with_mesh_but_no_material 0 1 :=
  ((claim_C4_query_with_only.1 (World.mk 2 [⟨0, [some 5, some 6]⟩, ⟨1, [some 7, none]⟩]) 0 1).2.1
    [some 5, some 6] [some 7, none] (by decide) (by decide) 1).mpr ⟨by decide, by decide⟩

/-- C6.  Overwrite: in a store satisfying the length invariant, if entity
`e < entities_count` already holds a present value `v1` of type `ty`, then
`add_component_to_entity e v2` completes, a subsequent `get_component`
returns `v2`, the `ty` collection keeps its length, and no new collection is
created. -/
theorem claim_C6_overwrite_in_place :
    ∀ (w : World) (ty e v1 v2 : Nat), LenInv w → e < w.entities_count →
      w.get_component ty e = some v1 →
      ∃ w' d d', w.add_component_to_entity ty e v2 = some w' ∧
        w.borrow_component_vec ty = some d ∧
        w'.borrow_component_vec ty = some d' ∧
        w'.get_component ty e = some v2 ∧
        d'.length = d.length ∧
        w'.component_vecs.length = w.component_vecs.length := by
  intro w ty e v1 v2 h he hget
  rcases hf : w.borrow_component_vec ty with _ | d
  · rw [World.get_component, if_neg (Nat.not_le.mpr he), hf] at hget
    simp at hget
  · have hdlen : d.length = w.entities_count := by
      obtain ⟨cv, hm, hty, hdata⟩ := findVec_mem hf
      exact hdata ▸ h cv hm
    obtain ⟨w', h1, hcount, hb, _, hmap, _⟩ := add_spec_found w ty e v2 d hf (hdlen ▸ he)
    refine ⟨w', d, d.set e (some v2), h1, rfl, hb, ?_, by simp, ?_⟩
    · have he' : ¬ w'.entities_count ≤ e := by rw [hcount]; omega
      simp [World.get_component, he', hb,
        List.getElem?_set_self (show e < d.length from hdlen ▸ he)]
    · have := congrArg List.length hmap
      simpa using this

theorem claim_C6_witness :
    ∃ w' d d', (World.mk 1 [⟨0, [some 5]⟩]).add_component_to_entity 0 0 7 = some w' ∧
      (World.mk 1 [⟨0, [some 5]⟩]).borrow_component_vec 0 = some d ∧
      w'.borrow_component_vec 0 = some d' ∧
      w'.get_component 0 0 = some 7 ∧
      d'.length = d.length ∧
      w'.component_vecs.length = (World.mk 1 [⟨0, [some 5]⟩]).component_vecs.length :=
  claim_C6_overwrite_in_place (World.mk 1 [⟨0, [some 5]⟩]) 0 0 5 7
    (by intro cv hm; simp at hm; simp [hm]) (by decide) (by decide)

/-- C7.  Absent reads are not errors: `get_component` returns `none` for any
entity id at or beyond `entities_count`, in any store; and in any store
reached by a trace of calls in which no call ever passed a value of type
`ty` to `add_component_to_entity`, `get_component` for `ty` returns `none`.
(Reads are pure functions of the store in this embedding: they return a
value and leave the store untouched by construction.) -/
theorem claim_C7_absent_reads :
    (∀ (w : World) (ty e : Nat), w.entities_count ≤ e →
      w.get_component ty e = none) ∧
    (∀ (ops : List Op) (w : World) (ty e : Nat),
      runOps World.new ops = some w →
      (∀ op ∈ ops, op.usesTy ty = false) →
      w.get_component ty e = none) := by
  constructor
  · intro w ty e h
    simp [World.get_component, h]
  · intro ops w ty e hrun hops
    have hb : w.borrow_component_vec ty = none :=
      runOps_borrow_none ops World.new w hrun rfl hops
    simp [World.get_component, hb]

theorem claim_C7_witness :
    World.new.get_component 0 0 = none ∧
    (World.mk 1 [⟨0, [some 5]⟩]).get_component 1 0 = none :=
  ⟨claim_C7_absent_reads.1 World.new 0 0 (by decide),
   claim_C7_absent_reads.2 [Op.newE, Op.addC 0 0 5] (World.mk 1 [⟨0, [some 5]⟩]) 1 0
     (by decide) (by decide)⟩

/-- C8.  No removal: across any single mutating call (and hence any sequence
of them; reads are pure functions in this embedding and change nothing),
`entities_count` never decreases, no registered collection shrinks or
disappears, and a present slot never becomes absent. -/
theorem claim_C8_no_removal :
    ∀ w w' : World, Step w w' →
      w.entities_count ≤ w'.entities_count ∧
      ∀ (ty : Nat) (d : List (Option Nat)), w.borrow_component_vec ty = some d →
        ∃ d' : List (Option Nat), w'.borrow_component_vec ty = some d' ∧
          d.length ≤ d'.length ∧
          ∀ i v : Nat, (d[i]?).bind id = some v →
            ∃ v' : Nat, (d'[i]?).bind id = some v' := by
  intro w w' hs
  cases hs with
  | new_entity =>
    refine ⟨Nat.le_succ _, ?_⟩
    intro ty d hb
    refine ⟨d ++ [none], ?_, by simp, ?_⟩
    · show findVec ty (w.component_vecs.map CVec.push_none) = _
      rw [findVec_map_push_none]
      rw [World.borrow_component_vec] at hb
      rw [hb]
      rfl
    · intro i v hv
      have hi : i < d.length := by
        by_contra hh
        push_neg at hh
        simp [List.getElem?_eq_none hh] at hv
      have hd : d[i] = some v := by
        rw [List.getElem?_eq_getElem hi] at hv
        simpa using hv
      refine ⟨v, ?_⟩
      rw [List.getElem?_append]
      simp [hi, List.getElem?_eq_getElem hi, hd]
  | add w2 ty e c hlt hadd =>
    rcases add_eq_some_cases hadd with ⟨d0, hf, hlt0, hcount, hb, hother, _, _⟩ | ⟨hf, _, rfl⟩
    · refine ⟨le_of_eq hcount.symm, ?_⟩
      intro ty2 d hbd
      by_cases hne : ty2 = ty
      · subst hne
        rw [hf] at hbd
        obtain rfl := Option.some.inj hbd
        refine ⟨d0.set e (some c), hb, by simp, ?_⟩
        intro i v hv
        by_cases hie : i = e
        · subst hie
          exact ⟨c, by simp [List.getElem?_set_self hlt0]⟩
        · refine ⟨v, ?_⟩
          rw [List.getElem?_set_ne (Ne.symm hie)]
          exact hv
      · refine ⟨d, ?_, le_refl _, fun i v hv => ⟨v, hv⟩⟩
        rw [hother ty2 hne]
        exact hbd
    · refine ⟨le_refl _, ?_⟩
      intro ty2 d hbd
      have hne : ty2 ≠ ty := by
        rintro rfl
        rw [hf] at hbd
        exact Option.noConfusion hbd
      refine ⟨d, ?_, le_refl _, fun i v hv => ⟨v, hv⟩⟩
      show findVec ty2 (w.component_vecs ++ _) = some d
      rw [findVec_append_other hne]
      exact hbd

theorem claim_C8_witness :
    World.new.entities_count ≤ World.new.new_entity.2.entities_count :=
  (claim_C8_no_removal World.new World.new.new_entity.2 (Step.new_entity World.new)).1

/-- C10.  Frame effect of `add_component_to_entity`: a completed in-range
call leaves `entities_count` unchanged, leaves the collection of every other
type unchanged, and within the written type's collection leaves every slot
other than the written entity's unchanged. -/
theorem claim_C10_frame_effect :
    ∀ (w w' : World) (ty e v : Nat), e < w.entities_count →
      w.add_component_to_entity ty e v = some w' →
      w'.entities_count = w.entities_count ∧
      (∀ ty2, ty2 ≠ ty → w'.borrow_component_vec ty2 = w.borrow_component_vec ty2) ∧
      (∀ d d', w.borrow_component_vec ty = some d →
        w'.borrow_component_vec ty = some d' →
        ∀ i, i ≠ e → d'[i]? = d[i]?) := by
  intro w w' ty e v he hadd
  rcases add_eq_some_cases hadd with ⟨d0, hf, hlt0, hcount, hb, hother, _, _⟩ | ⟨hf, _, rfl⟩
  · refine ⟨hcount, hother, ?_⟩
    intro d d' h0 h0' i hne
    rw [hf] at h0
    obtain rfl := Option.some.inj h0
    rw [hb] at h0'
    obtain rfl := Option.some.inj h0'
    exact List.getElem?_set_ne (Ne.symm hne)
  · refine ⟨rfl, ?_, ?_⟩
    · intro ty2 hne
      show findVec ty2 (w.component_vecs ++ _) = _
      rw [findVec_append_other hne]
      rfl
    · intro d d' h0 h0' i hne
      rw [hf] at h0
      exact Option.noConfusion h0

theorem claim_C10_witness :
    (World.mk 1 [⟨0, [some 7]⟩]).entities_count = (World.mk 1 [⟨0, [some 5]⟩]).entities_count :=
  (claim_C10_frame_effect (World.mk 1 [⟨0, [some 5]⟩]) (World.mk 1 [⟨0, [some 7]⟩])
    0 0 7 (by decide) (by decide)).1
